import Mathlib

set_option maxHeartbeats 1000000

/-!
Shallow embedding of the go-http-proxy resilience core
(internal/circuitbreaker/breaker.go, internal/cache/cache.go,
internal/health/checker.go and the proxy orchestration handlers),
with theorems checking the specified properties of each component.

Time is modelled as a natural-number instant passed explicitly to every
operation that reads the clock; the expression time.Since(t) evaluated at
instant now is modelled as now - t (truncated subtraction, i.e. a
non-negative elapsed duration). Mutexes, atomics and goroutines are
dropped: every operation is a sequential state transformer.
-/

/-! ## Circuit breaker (internal/circuitbreaker/breaker.go) -/

/-- Go type State with constants StateClosed, StateHalfOpen, StateOpen. -/
inductive BreakerState where
  | closed
  | halfOpen
  | opened
deriving DecidableEq

/-- Go struct CircuitBreaker. The name field and the onStateChange callback
do not affect the transition logic and are dropped; the mutex is dropped
(sequential model). -/
structure CircuitBreaker where
  maxFailures : Int
  timeout : Nat
  failures : Int
  lastFailure : Nat
  state : BreakerState
deriving DecidableEq

/-- Go func New: zero failures, zero lastFailure (zero time), Closed. -/
def CircuitBreaker.new (maxFailures : Int) (timeout : Nat) : CircuitBreaker :=
  { maxFailures := maxFailures
    timeout := timeout
    failures := 0
    lastFailure := 0
    state := .closed }

/-- Go method Allow, evaluated at instant now. In the Open case the code
compares time.Since(cb.lastFailure) > cb.timeout and, when the timeout has
elapsed, re-takes the lock, rechecks the state (still Open in the
sequential model), moves to HalfOpen and returns true. In HalfOpen and
Closed it returns true without a state change. Returns the decision and
the updated breaker. -/
def CircuitBreaker.Allow (cb : CircuitBreaker) (now : Nat) : Bool × CircuitBreaker :=
  match cb.state with
  | .opened =>
      if now - cb.lastFailure > cb.timeout then
        (true, { cb with state := .halfOpen })
      else
        (false, cb)
  | .halfOpen => (true, cb)
  | .closed => (true, cb)

/-- Go method Success: only a HalfOpen breaker changes, to Closed with the
failure counter reset to 0. -/
def CircuitBreaker.Success (cb : CircuitBreaker) : CircuitBreaker :=
  if cb.state = .halfOpen then
    { cb with state := .closed, failures := 0 }
  else
    cb

/-- Go method Failure, evaluated at instant now: increments the counter,
records the failure time, then trips Closed to Open once
failures >= maxFailures, and HalfOpen back to Open. -/
def CircuitBreaker.Failure (cb : CircuitBreaker) (now : Nat) : CircuitBreaker :=
  let cb1 := { cb with failures := cb.failures + 1, lastFailure := now }
  if cb1.state = .closed ∧ cb1.failures ≥ cb1.maxFailures then
    { cb1 with state := .opened }
  else if cb1.state = .halfOpen then
    { cb1 with state := .opened }
  else
    cb1

/-- A sequence of Failure calls at the given instants, in order. -/
def applyFailures (cb : CircuitBreaker) (ts : List Nat) : CircuitBreaker :=
  ts.foldl CircuitBreaker.Failure cb

/-- A breaker sitting in the Open state: threshold 2 reached, timeout 5,
last failure at instant 0. -/
def openBreaker : CircuitBreaker :=
  { maxFailures := 2, timeout := 5, failures := 2, lastFailure := 0, state := .opened }

/-- A breaker sitting in the HalfOpen state. -/
def halfOpenBreaker : CircuitBreaker :=
  { maxFailures := 2, timeout := 5, failures := 2, lastFailure := 0, state := .halfOpen }

/-! ## Response cache (internal/cache/cache.go) -/

/-- Go http.Request, restricted to the fields the cache and the proxy
handlers read: Method and URL.String(). -/
structure Request where
  method : String
  url : String
deriving DecidableEq

/-- Go http.Header: canonical-cased keys mapped to lists of values. -/
abbrev Header := List (String × List String)

/-- Go http.Header.Get: the first value stored under the key, or the empty
string when the key is absent. -/
def headerGet (h : Header) (k : String) : String :=
  match h.find? (fun p => p.fst == k) with
  | some p =>
      match p.snd with
      | [] => ""
      | v :: _ => v
  | none => ""

/-- Go http.Response, restricted to the fields the cache reads or copies.
The body field is the byte sequence the Body reader yields in full, or
none for a nil Body. -/
structure Response where
  status : String
  statusCode : Nat
  header : Header
  contentLength : Int
  body : Option (List Nat)
deriving DecidableEq

/-- Go struct cacheItem; the per-item mutex is dropped (sequential model). -/
structure cacheItem where
  response : Response
  body : List Nat
  size : Int
  expires : Nat
  lastUsed : Nat
  hits : Int
deriving DecidableEq

/-- Go struct Cache. The sync.Map of items is modelled as an association
list with unique keys; size is the atomic running total. -/
structure Cache where
  items : List (String × cacheItem)
  size : Int
  maxSize : Int
  ttl : Nat
deriving DecidableEq

/-- sync.Map.Load on the association list. -/
def loadItem : List (String × cacheItem) → String → Option cacheItem
  | [], _ => none
  | p :: rest, k => if p.fst = k then some p.snd else loadItem rest k

/-- sync.Map.Store on the association list: replace the binding when the
key is present, otherwise add it. -/
def storeItem : List (String × cacheItem) → String → cacheItem → List (String × cacheItem)
  | [], k, v => [(k, v)]
  | p :: rest, k, v => if p.fst = k then (k, v) :: rest else p :: storeItem rest k v

/-- sync.Map.Delete (and the delete half of LoadAndDelete) on the
association list. -/
def deleteItem : List (String × cacheItem) → String → List (String × cacheItem)
  | [], _ => []
  | p :: rest, k => if p.fst = k then deleteItem rest k else p :: deleteItem rest k

/-- Go func New(config): empty cache with the configured bounds. The
background maintenance goroutine is dropped; lazy expiry on Get is kept. -/
def Cache.new (maxSize : Int) (ttl : Nat) : Cache :=
  { items := [], size := 0, maxSize := maxSize, ttl := ttl }

/-- Go generateKey: method concatenated with the URL string. -/
def generateKey (r : Request) : String := r.method ++ r.url

/-- Go isCacheable: only GET requests, only status 200, and no
Cache-Control: no-store response header. -/
def isCacheable (r : Request) (resp : Response) : Bool :=
  if r.method ≠ "GET" then false
  else if resp.statusCode ≠ 200 then false
  else if headerGet resp.header "Cache-Control" = "no-store" then false
  else true

/-- Go copyResponse: reads the whole body and errors on a nil response or
nil body (a non-nil response is the only case the model represents). The
successful read always yields the full byte sequence. -/
def copyResponse (resp : Response) : Except String (List Nat) :=
  match resp.body with
  | none => .error "invalid response or body"
  | some b => .ok b

/-- Eviction score from Cache.evict: elapsed seconds since last use
divided by (hits + 1); float64 arithmetic is modelled exactly over the
rationals, which preserves the ordering for these integer inputs. -/
def evictScore (now : Nat) (it : cacheItem) : Rat :=
  ((now - it.lastUsed : Nat) : Rat) / ((it.hits : Rat) + 1)

/-- One insertion step of the descending sort of eviction candidates. -/
def insertByScore (now : Nat) (p : String × cacheItem) :
    List (String × cacheItem) → List (String × cacheItem)
  | [] => [p]
  | q :: rest =>
      if evictScore now p.snd > evictScore now q.snd then p :: q :: rest
      else q :: insertByScore now p rest

/-- The sort.Slice call of Cache.evict (higher score first). Go sort.Slice
is unstable and sync.Map.Range order is unspecified; the model fixes a
deterministic insertion sort over the list order, one of the admissible
orders. -/
def sortByScore (now : Nat) : List (String × cacheItem) → List (String × cacheItem)
  | [] => []
  | p :: rest => insertByScore now p (sortByScore now rest)

/-- The eviction loop of Cache.evict: walk the sorted candidates, stop
once the freed space reaches the request, delete each visited entry and
subtract its size. -/
def evictLoop (needed : Int) : Cache → Int → List (String × cacheItem) → Cache
  | c, _, [] => c
  | c, freed, (k, it) :: rest =>
      if freed ≥ needed then c
      else
        evictLoop needed
          { c with items := deleteItem c.items k, size := c.size - it.size }
          (freed + it.size) rest

/-- Go Cache.evict at instant now. -/
def Cache.evict (c : Cache) (needed : Int) (now : Nat) : Cache :=
  evictLoop needed c 0 (sortByScore now c.items)

/-- Go Cache.Set at instant now: skip non-cacheable pairs, buffer the
body, size-check with eviction, then store under generateKey and add the
item size to the running total. Returns the error outcome together with
the cache state after the call. -/
def Cache.Set (c : Cache) (now : Nat) (r : Request) (resp : Response) :
    Except String Unit × Cache :=
  if isCacheable r resp = false then (.ok (), c)
  else
    match copyResponse resp with
    | .error e => (.error ("failed to copy response: " ++ e), c)
    | .ok body =>
        let item : cacheItem :=
          { response := resp, body := body, size := (body.length : Int),
            expires := now + c.ttl, lastUsed := now, hits := 0 }
        let newSize := c.size + item.size
        if c.maxSize > 0 ∧ newSize > c.maxSize then
          let c1 := c.evict item.size now
          if c1.size + item.size > c.maxSize then
            (.error ("cache full: cannot store item of size " ++ toString item.size), c1)
          else
            (.ok (),
             { c1 with items := storeItem c1.items (generateKey r) item,
                       size := c1.size + item.size })
        else
          (.ok (),
           { c with items := storeItem c.items (generateKey r) item,
                    size := c.size + item.size })

/-- Go copyResponseWithBody: a new Response with a freshly allocated
header map holding the same value slices (the per-key loop copies slice
descriptors, see the aliased model below), content length set to the
buffered body length, and a fresh reader over the buffered body. -/
def copyResponseWithBody (resp : Response) (body : List Nat) : Response :=
  { status := resp.status
    statusCode := resp.statusCode
    header := resp.header.map (fun p => p)
    contentLength := (body.length : Int)
    body := some body }

/-- Go Cache.Get at instant now: miss on an absent key; an entry whose
expiry has passed is deleted, its size subtracted, and reported as a miss;
otherwise the hit updates the hit counter and last-used time and returns a
copy of the stored response. -/
def Cache.Get (c : Cache) (now : Nat) (r : Request) : Option Response × Cache :=
  let key := generateKey r
  match loadItem c.items key with
  | none => (none, c)
  | some item =>
      if now > item.expires then
        (none, { c with items := deleteItem c.items key, size := c.size - item.size })
      else
        let item1 := { item with hits := item.hits + 1, lastUsed := now }
        (some (copyResponseWithBody item.response item.body),
         { c with items := storeItem c.items key item1 })

/-- The total recorded size of a list of entries. -/
def sumSizes (items : List (String × cacheItem)) : Int :=
  (items.map (fun p => p.snd.size)).sum

/-- The live total size: the sum of the sizes of the entries actually
stored in the map (as opposed to the running size counter). -/
def liveSize (c : Cache) : Int := sumSizes c.items

/-- The cache state invariant maintained by the operations: stored keys
are distinct, stored sizes are non-negative, the live total never exceeds
the running size counter (a Set over an existing key adds the new size
without subtracting the old one, so the counter can only over-count), and
the counter respects a positive configured maximum. -/
def cacheInv (c : Cache) : Prop :=
  (c.items.map Prod.fst).Nodup ∧
  (∀ p ∈ c.items, 0 ≤ p.snd.size) ∧
  sumSizes c.items ≤ c.size ∧
  (0 < c.maxSize → c.size ≤ c.maxSize)

/-- The stored keys are pairwise distinct. -/
def keysNodup (items : List (String × cacheItem)) : Prop := (items.map Prod.fst).Nodup

/-- Every stored entry records a non-negative size. -/
def sizesNonneg (items : List (String × cacheItem)) : Prop := ∀ p ∈ items, 0 ≤ p.snd.size

/-- A sequence of Set calls, each at its own instant. -/
def applySets (c : Cache) (ops : List (Nat × Request × Response)) : Cache :=
  ops.foldl (fun acc op => (acc.Set op.fst op.snd.fst op.snd.snd).snd) c

/-- A concrete GET request. -/
def getReqA : Request := { method := "GET", url := "/a" }

/-- A second concrete GET request with a different URL. -/
def getReqB : Request := { method := "GET", url := "/b" }

/-- A concrete cacheable 200 response with a 5-byte body. -/
def okRespSmall : Response :=
  { status := "200 OK", statusCode := 200, header := [], contentLength := 5,
    body := some [1, 2, 3, 4, 5] }

/-- A concrete cacheable 200 response with an 11-byte body. -/
def okRespBig : Response :=
  { status := "200 OK", statusCode := 200, header := [], contentLength := 11,
    body := some [1, 2, 3, 4, 5, 6, 7, 8, 9, 10, 11] }

/-- A concrete non-GET request. -/
def postReq : Request := { method := "POST", url := "/a" }

/-- A concrete stored cache item: the small response, expiring at
instant 100. -/
def itemA : cacheItem :=
  { response := okRespSmall, body := [1, 2, 3, 4, 5], size := 5, expires := 100,
    lastUsed := 0, hits := 0 }

/-- A concrete cache holding itemA under the key of getReqA. -/
def cacheWithA : Cache :=
  { items := [(generateKey getReqA, itemA)], size := 5, maxSize := 10, ttl := 100 }

/-! ## Header aliasing model for copyResponseWithBody

In Go, http.Header is a map from string to a string slice.
copyResponseWithBody allocates a fresh map and assigns the original value
slices into it; a slice assignment copies only the slice descriptor, so
both maps keep referencing the same backing array. To make that sharing
observable, this refined model gives every header value slice an identity
into a heap of slices; an in-place element write goes through the heap and
is therefore seen by every response holding the same slice id. -/

abbrev SliceId := Nat

/-- The heap of header value slices, indexed by slice id. -/
abbrev SliceHeap := List (List String)

/-- Go http.Response under the aliasing model: header values are slice
ids. -/
structure ResponseA where
  status : String
  statusCode : Nat
  header : List (String × SliceId)
  body : List Nat
deriving DecidableEq

/-- Dereference a slice id. -/
def heapRead (h : SliceHeap) (id : SliceId) : List String := h.getD id []

/-- An in-place write slice[i] = v through a slice reference. -/
def heapWrite (h : SliceHeap) (id : SliceId) (i : Nat) (v : String) : SliceHeap :=
  h.set id ((h.getD id []).set i v)

/-- The header values a response observes for a key, through the heap. -/
def headerValueA (h : SliceHeap) (resp : ResponseA) (k : String) : List String :=
  match resp.header.find? (fun p => p.fst == k) with
  | some p => heapRead h p.snd
  | none => []

/-- Go copyResponseWithBody under the aliasing model: make(http.Header)
allocates a fresh map, and the per-key loop copies each slice descriptor
unchanged, so the fresh map binds the same slice ids. -/
def copyResponseWithBodyA (resp : ResponseA) (body : List Nat) : ResponseA :=
  { status := resp.status
    statusCode := resp.statusCode
    header := resp.header.map (fun p => (p.fst, p.snd))
    body := body }

/-- A concrete cached response whose X-Test header is slice id 0. -/
def cachedRespA : ResponseA :=
  { status := "200 OK", statusCode := 200, header := [("X-Test", 0)], body := [1, 2] }

/-- A concrete heap: slice 0 holds the single value a. -/
def heap0 : SliceHeap := [["a"]]

/-! ## Health checker (internal/health/checker.go) -/

/-- The outcome of url.Parse on the configured base URL, restricted to the
fields validateURL inspects: a parse error, or the parsed scheme and
host. -/
inductive URLParse where
  | failed (msg : String)
  | parsed (scheme host : String)
deriving DecidableEq

/-- Go validateURL: a parse error is propagated; an empty scheme or host
is rejected. -/
def validateURL : URLParse → Except String Unit
  | .failed m => .error m
  | .parsed scheme host =>
      if scheme = "" then .error "missing scheme"
      else if host = "" then .error "missing host"
      else .ok ()

/-- The network outcome of one probe, supplied as an oracle: request
creation failure, transport failure from client.Do, or a response with
its status code, status text, body length and optional body-read error. -/
inductive NetOutcome where
  | createFailed (msg : String)
  | transportFailed (msg : String)
  | gotResponse (statusCode : Nat) (status : String) (bodyLen : Nat)
      (bodyReadErr : Option String)
deriving DecidableEq

/-- The io.LimitReader cap of checkService: 1024 bytes. -/
def healthBodyCap : Nat := 1024

/-- The probe client timeout from NewChecker, in milliseconds
(5 * time.Second). -/
def healthClientTimeout : Nat := 5000

/-- Bytes consumed from a probe response body of the given length: the
io.Copy over io.LimitReader(body, 1024) reads at most the cap. -/
def bodyBytesRead (bodyLen : Nat) : Nat := min bodyLen healthBodyCap

/-- Go health.Status. -/
structure ProbeStatus where
  healthy : Bool
  lastCheck : Nat
  message : String
deriving DecidableEq

/-- The outbound request a probe issues, when it gets that far. -/
structure ProbeRequest where
  method : String
  target : String
deriving DecidableEq

/-- Go Checker.checkService at instant now against the given parse and
network outcomes: classify into invalid URL, request-creation failure,
transport failure, body-read failure, non-200 status, or healthy, with
the diagnostic messages the code formats. Also reports the request the
probe issued, when one was issued. -/
def checkService (now : Nat) (url : String) (parse : URLParse) (net : NetOutcome) :
    ProbeStatus × Option ProbeRequest :=
  match validateURL parse with
  | .error e =>
      ({ healthy := false, lastCheck := now, message := "Invalid URL: " ++ e }, none)
  | .ok _ =>
      match net with
      | .createFailed m =>
          ({ healthy := false, lastCheck := now,
             message := "Failed to create request: " ++ m }, none)
      | .transportFailed m =>
          ({ healthy := false, lastCheck := now, message := "Request failed: " ++ m },
           some { method := "GET", target := url ++ "/health" })
      | .gotResponse code statusText _ bodyReadErr =>
          let req : ProbeRequest := { method := "GET", target := url ++ "/health" }
          match bodyReadErr with
          | some m =>
              ({ healthy := false, lastCheck := now,
                 message := "Failed to read response body: " ++ m }, some req)
          | none =>
              if code ≠ 200 then
                ({ healthy := false, lastCheck := now,
                   message := "Unexpected status code: " ++ statusText }, some req)
              else
                ({ healthy := true, lastCheck := now, message := "" }, some req)

/-! ## Proxy orchestration (serviceHandler, handleRequest, handleHealth) -/

/-- Go proxy.HTTPError, next to every other error value the handlers can
see. -/
inductive ProxyError where
  | httpErr (code : Nat) (message : String)
  | generic (message : String)
deriving DecidableEq

/-- Go Proxy.handleError: an HTTPError surfaces its own code and message,
anything else becomes 500 Internal Server Error. Returns the status and
body written through http.Error. -/
def handleError : ProxyError → Nat × String
  | .httpErr code msg => (code, msg)
  | .generic _ => (500, "Internal Server Error")

/-- Observable steps of one request through serviceHandler, in order. -/
inductive ProxyEvent where
  | breakerChecked (allowed : Bool)
  | filterRan (i : Nat)
  | cacheLookup (hit : Bool)
  | forwarded
deriving DecidableEq

/-- A filter: Process inspects or rewrites the request, or fails. -/
abbrev FilterFn := Request → Except ProxyError Request

/-- The filter loop of serviceHandler: run each filter in order, stopping
at the first error; records which filters ran. -/
def runFilters : List FilterFn → Nat → Request → Except ProxyError Request × List ProxyEvent
  | [], _, r => (.ok r, [])
  | f :: fs, i, r =>
      match f r with
      | .error e => (.error e, [.filterRan i])
      | .ok r1 =>
          let rest := runFilters fs (i + 1) r1
          (rest.fst, .filterRan i :: rest.snd)

/-- Outcome of the inner handler: status written to the client, events in
order, cache state after the call. -/
structure BaseResult where
  status : Nat
  events : List ProxyEvent
  cache : Option Cache
deriving DecidableEq

/-- Go Proxy.handleRequest at instant now, with the forwarding outcome
supplied as an oracle (client.Do never yields an HTTPError, so transport
failures carry only a message): cache lookup first when caching is
enabled, a hit writes the cached response; on a miss the request is
forwarded, a transport error is surfaced through handleError, a 200
response is stored in the cache (a Set error is discarded), and the
response status is written. -/
def handleRequest (cache? : Option Cache) (now : Nat) (r : Request)
    (forward : Except String Response) : BaseResult :=
  match cache? with
  | some c =>
      match c.Get now r with
      | (some cached, c1) =>
          { status := cached.statusCode, events := [.cacheLookup true], cache := some c1 }
      | (none, c1) =>
          match forward with
          | .error e =>
              { status := (handleError (.generic e)).fst,
                events := [.cacheLookup false, .forwarded], cache := some c1 }
          | .ok resp =>
              let c2 := if resp.statusCode = 200 then (c1.Set now r resp).snd else c1
              { status := resp.statusCode,
                events := [.cacheLookup false, .forwarded], cache := some c2 }
  | none =>
      match forward with
      | .error e =>
          { status := (handleError (.generic e)).fst, events := [.forwarded], cache := none }
      | .ok resp =>
          { status := resp.statusCode, events := [.forwarded], cache := none }

/-- The inner HandlerFunc of Proxy.serviceHandler: the filter loop, then
handleRequest; a filter error aborts through handleError. -/
def baseHandler (fs : List FilterFn) (cache? : Option Cache) (now : Nat) (r : Request)
    (forward : Except String Response) : BaseResult :=
  match runFilters fs 0 r with
  | (.error e, evs) => { status := (handleError e).fst, events := evs, cache := cache? }
  | (.ok r1, evs) =>
      let res := handleRequest cache? now r1 forward
      { status := res.status, events := evs ++ res.events, cache := res.cache }

/-- Outcome of the full service handler. -/
structure ServeResult where
  status : Nat
  events : List ProxyEvent
  breaker : Option CircuitBreaker
  cache : Option Cache
deriving DecidableEq

/-- Go Proxy.serviceHandler: when a breaker exists for the service the
base handler is wrapped by CircuitBreaker.Wrap, which checks Allow first
and answers 503 Service Unavailable without invoking the wrapped handler
when the call is not admitted; after an admitted call it records Failure
for a status of 500 or above and Success otherwise. -/
def serviceHandler (breaker? : Option CircuitBreaker) (fs : List FilterFn)
    (cache? : Option Cache) (now : Nat) (r : Request)
    (forward : Except String Response) : ServeResult :=
  match breaker? with
  | some cb =>
      match cb.Allow now with
      | (false, cb1) =>
          { status := 503, events := [.breakerChecked false],
            breaker := some cb1, cache := cache? }
      | (true, cb1) =>
          let res := baseHandler fs cache? now r forward
          let cb2 := if res.status ≥ 500 then cb1.Failure now else cb1.Success
          { status := res.status, events := .breakerChecked true :: res.events,
            breaker := some cb2, cache := res.cache }
  | none =>
      let res := baseHandler fs cache? now r forward
      { status := res.status, events := res.events, breaker := none, cache := res.cache }

/-- One configured service as Proxy.handleHealth sees it: its name, its
optional breaker, and its configured URL. -/
structure HealthService where
  name : String
  breaker : Option CircuitBreaker
  url : String
deriving DecidableEq

/-- The per-service loop of Proxy.handleHealth at instant now: a service
with a breaker reports breaker.Allow() (updating the breaker as a side
effect); a service without one reports whether the http.Head probe
succeeded (supplied as an oracle). Returns the reported flags and the
services with their updated breakers. -/
def handleHealthLoop (now : Nat) (headOk : String → Bool) :
    List HealthService → List (String × Bool) × List HealthService
  | [] => ([], [])
  | s :: rest =>
      let step :=
        match s.breaker with
        | some cb =>
            let a := cb.Allow now
            (a.fst, { s with breaker := some a.snd })
        | none => (headOk s.url, s)
      let tail := handleHealthLoop now headOk rest
      ((s.name, step.fst) :: tail.fst, step.snd :: tail.snd)

/-- The aggregate health report of Proxy.handleHealth. -/
structure HealthReport where
  status : String
  services : List (String × Bool)
  timestamp : Nat
  after : List HealthService
deriving DecidableEq

/-- Go Proxy.handleHealth at instant now: collect the per-service flags,
then report degraded when any flag is false and ok otherwise. The
services with their updated breakers are carried in the after field. -/
def handleHealth (now : Nat) (svcs : List HealthService) (headOk : String → Bool) :
    HealthReport :=
  let looped := handleHealthLoop now headOk svcs
  { status := if looped.fst.all (fun p => p.snd) then "ok" else "degraded"
    services := looped.fst
    timestamp := now
    after := looped.snd }

/-- A concrete service whose breaker is open with its timeout already
elapsed at instant 6. -/
def healthSvc : HealthService :=
  { name := "svc", breaker := some openBreaker, url := "http://backend" }

/-- A concrete filter that always fails with HTTPError 418. -/
def teapotFilter : FilterFn := fun _ => .error (.httpErr 418 "teapot")

/-- A freshly constructed closed breaker. -/
def closedBreaker : CircuitBreaker := CircuitBreaker.new 2 5

theorem Failure_def (cb : CircuitBreaker) (now : Nat) :
    cb.Failure now =
      if cb.state = .closed ∧ cb.failures + 1 ≥ cb.maxFailures then
        { cb with failures := cb.failures + 1, lastFailure := now, state := .opened }
      else if cb.state = .halfOpen then
        { cb with failures := cb.failures + 1, lastFailure := now, state := .opened }
      else
        { cb with failures := cb.failures + 1, lastFailure := now } := by
  obtain ⟨mf, tmo, fl, lf, st⟩ := cb
  rfl

theorem Failure_maxFailures (cb : CircuitBreaker) (now : Nat) :
    (cb.Failure now).maxFailures = cb.maxFailures := by
  rw [Failure_def]
  split_ifs <;> rfl

theorem Failure_timeout (cb : CircuitBreaker) (now : Nat) :
    (cb.Failure now).timeout = cb.timeout := by
  rw [Failure_def]
  split_ifs <;> rfl

theorem Failure_failures (cb : CircuitBreaker) (now : Nat) :
    (cb.Failure now).failures = cb.failures + 1 := by
  rw [Failure_def]
  split_ifs <;> rfl

theorem Failure_lastFailure (cb : CircuitBreaker) (now : Nat) :
    (cb.Failure now).lastFailure = now := by
  rw [Failure_def]
  split_ifs <;> rfl

theorem Failure_state_opened (cb : CircuitBreaker) (now : Nat)
    (h : cb.state = .opened) : (cb.Failure now).state = .opened := by
  rw [Failure_def]
  split_ifs <;> simp_all

theorem Failure_state_closed (cb : CircuitBreaker) (now : Nat)
    (h : cb.state = .closed) :
    (cb.Failure now).state =
      if cb.maxFailures ≤ cb.failures + 1 then .opened else .closed := by
  rw [Failure_def]
  split_ifs <;> simp_all

theorem applyFailures_maxFailures (cb : CircuitBreaker) (ts : List Nat) :
    (applyFailures cb ts).maxFailures = cb.maxFailures := by
  induction ts generalizing cb with
  | nil => rfl
  | cons t rest ih =>
      simp only [applyFailures, List.foldl_cons] at *
      rw [ih, Failure_maxFailures]

theorem applyFailures_timeout (cb : CircuitBreaker) (ts : List Nat) :
    (applyFailures cb ts).timeout = cb.timeout := by
  induction ts generalizing cb with
  | nil => rfl
  | cons t rest ih =>
      simp only [applyFailures, List.foldl_cons] at *
      rw [ih, Failure_timeout]

theorem applyFailures_failures (cb : CircuitBreaker) (ts : List Nat) :
    (applyFailures cb ts).failures = cb.failures + ts.length := by
  induction ts generalizing cb with
  | nil => simp [applyFailures]
  | cons t rest ih =>
      simp only [applyFailures, List.foldl_cons, List.length_cons] at *
      rw [ih, Failure_failures]
      push_cast
      ring

theorem applyFailures_opened (cb : CircuitBreaker) (ts : List Nat)
    (h : cb.state = .opened) : (applyFailures cb ts).state = .opened := by
  induction ts generalizing cb with
  | nil => exact h
  | cons t rest ih =>
      simp only [applyFailures, List.foldl_cons] at *
      exact ih _ (Failure_state_opened cb t h)

theorem applyFailures_lastFailure (cb : CircuitBreaker) (ts : List Nat) (tLast : Nat)
    (h : ts.getLast? = some tLast) :
    (applyFailures cb ts).lastFailure = tLast := by
  induction ts generalizing cb with
  | nil => simp at h
  | cons t rest ih =>
      cases rest with
      | nil =>
          simp only [List.getLast?_singleton, Option.some.injEq] at h
          simp only [applyFailures, List.foldl_cons, List.foldl_nil]
          rw [Failure_lastFailure, h]
      | cons t2 rest2 =>
          rw [List.getLast?_cons_cons] at h
          simp only [applyFailures, List.foldl_cons] at *
          exact ih _ h

theorem applyFailures_closed_opens (cb : CircuitBreaker) (ts : List Nat)
    (hclosed : cb.state = .closed) (hne : ts ≠ [])
    (hthr : cb.maxFailures ≤ cb.failures + ts.length) :
    (applyFailures cb ts).state = .opened := by
  induction ts generalizing cb with
  | nil => exact absurd rfl hne
  | cons t rest ih =>
      simp only [applyFailures, List.foldl_cons] at *
      by_cases hmax : cb.maxFailures ≤ cb.failures + 1
      · have hst : (cb.Failure t).state = .opened := by
          rw [Failure_state_closed cb t hclosed, if_pos hmax]
        exact applyFailures_opened _ rest hst
      · have hst : (cb.Failure t).state = .closed := by
          rw [Failure_state_closed cb t hclosed, if_neg hmax]
        cases rest with
        | nil =>
            exfalso
            apply hmax
            simpa using hthr
        | cons t2 rest2 =>
            apply ih _ hst (by simp)
            rw [Failure_failures, Failure_maxFailures]
            simp only [List.length_cons] at hthr ⊢
            push_cast at hthr ⊢
            omega

theorem Allow_opened_def (cb : CircuitBreaker) (now : Nat)
    (h : cb.state = .opened) :
    cb.Allow now =
      if now - cb.lastFailure > cb.timeout then
        (true, { cb with state := .halfOpen })
      else
        (false, cb) := by
  obtain ⟨mf, tmo, fl, lf, st⟩ := cb
  cases st
  · simp at h
  · simp at h
  · rfl

theorem Allow_opened_blocked (cb : CircuitBreaker) (now : Nat)
    (hst : cb.state = .opened) (hwait : now - cb.lastFailure ≤ cb.timeout) :
    cb.Allow now = (false, cb) := by
  rw [Allow_opened_def cb now hst, if_neg]
  omega

/-- C1: starting Closed, a sequence of Failure calls whose count reaches the
configured threshold leaves the breaker Open with lastFailure equal to the
time of the last Failure, and while the elapsed time since that last
failure is at most the configured timeout, Allow returns false and leaves
the breaker unchanged. -/
theorem claim_C1_threshold_opens_and_blocks (cb : CircuitBreaker) (ts : List Nat)
    (tLast now : Nat)
    (hclosed : cb.state = .closed)
    (hlast : ts.getLast? = some tLast)
    (hthr : cb.maxFailures ≤ cb.failures + ts.length)
    (hwait : now - tLast ≤ cb.timeout) :
    (applyFailures cb ts).state = .opened ∧
    (applyFailures cb ts).lastFailure = tLast ∧
    (applyFailures cb ts).Allow now = (false, applyFailures cb ts) := by
  have hne : ts ≠ [] := by
    intro h
    rw [h] at hlast
    simp at hlast
  have hopen := applyFailures_closed_opens cb ts hclosed hne hthr
  have hlf := applyFailures_lastFailure cb ts tLast hlast
  refine ⟨hopen, hlf, ?_⟩
  apply Allow_opened_blocked _ _ hopen
  rw [hlf, applyFailures_timeout]
  exact hwait

/-- Witness for C1 at a concrete breaker: threshold 2, timeout 10,
failures at instants 3 and 5, Allow at instant 15 (elapsed 10 = timeout). -/
theorem claim_C1_threshold_opens_and_blocks_witness :
    (applyFailures (CircuitBreaker.new 2 10) [3, 5]).state = .opened ∧
    (applyFailures (CircuitBreaker.new 2 10) [3, 5]).lastFailure = 5 ∧
    (applyFailures (CircuitBreaker.new 2 10) [3, 5]).Allow 15 =
      (false, applyFailures (CircuitBreaker.new 2 10) [3, 5]) :=
  claim_C1_threshold_opens_and_blocks (CircuitBreaker.new 2 10) [3, 5] 5 15
    (by decide) (by decide) (by decide) (by decide)

/-- C2 counterexample: after the Open timeout elapses, the first Allow (at
instant 6) moves the breaker to HalfOpen and returns true, but a second
Allow made before the trial resolves returns true as well: the code
returns true unconditionally in the HalfOpen state, while the claim says
every further Allow before the trial resolves returns false. -/
theorem claim_C2_counterexample :
    (openBreaker.Allow 6).fst = true ∧
    (openBreaker.Allow 6).snd.state = .halfOpen ∧
    ((openBreaker.Allow 6).snd.Allow 7).fst = true ∧
    ((openBreaker.Allow 6).snd.Allow 7).snd = (openBreaker.Allow 6).snd := by
  decide

/-- C2 amended: after an Open breaker timeout has elapsed since the last
failure, Allow transitions the breaker to HalfOpen and returns true, and
that call is the only one that performs the transition; however every
further Allow call made in the HalfOpen state, before the trial resolves
via Success or Failure, also returns true and leaves the state HalfOpen
(the code does not restrict the half-open window to a single trial). -/
theorem claim_C2_amended (cb : CircuitBreaker) (now : Nat)
    (hst : cb.state = .opened) (helapsed : now - cb.lastFailure > cb.timeout) :
    cb.Allow now = (true, { cb with state := .halfOpen }) ∧
    ∀ now2, ({ cb with state := BreakerState.halfOpen } : CircuitBreaker).Allow now2 =
      (true, { cb with state := .halfOpen }) := by
  constructor
  · rw [Allow_opened_def cb now hst, if_pos helapsed]
  · intro now2
    rfl

/-- Witness for the amended C2 at the concrete open breaker, first Allow at
instant 6, second at instant 7. -/
theorem claim_C2_amended_witness :
    openBreaker.Allow 6 = (true, { openBreaker with state := .halfOpen }) ∧
    ({ openBreaker with state := BreakerState.halfOpen } : CircuitBreaker).Allow 7 =
      (true, { openBreaker with state := .halfOpen }) :=
  ⟨(claim_C2_amended openBreaker 6 (by decide) (by decide)).1,
   (claim_C2_amended openBreaker 6 (by decide) (by decide)).2 7⟩

/-- C3: in the HalfOpen state, Success transitions the breaker to Closed
with the failure counter reset to 0, and Failure transitions it back to
Open. -/
theorem claim_C3_halfopen_resolution (cb : CircuitBreaker) (now : Nat)
    (h : cb.state = .halfOpen) :
    cb.Success.state = .closed ∧ cb.Success.failures = 0 ∧
    (cb.Failure now).state = .opened := by
  refine ⟨?_, ?_, ?_⟩
  · unfold CircuitBreaker.Success
    rw [if_pos h]
  · unfold CircuitBreaker.Success
    rw [if_pos h]
  · rw [Failure_def]
    split_ifs <;> simp_all

/-- Witness for C3 at a concrete HalfOpen breaker, Failure at instant 9. -/
theorem claim_C3_halfopen_resolution_witness :
    halfOpenBreaker.Success.state = .closed ∧ halfOpenBreaker.Success.failures = 0 ∧
    (halfOpenBreaker.Failure 9).state = .opened :=
  claim_C3_halfopen_resolution halfOpenBreaker 9 (by decide)

/-! ## Cache lemmas -/

theorem loadItem_storeItem_self (items : List (String × cacheItem)) (k : String)
    (v : cacheItem) : loadItem (storeItem items k v) k = some v := by
  induction items with
  | nil => simp [storeItem, loadItem]
  | cons p rest ih =>
      by_cases h : p.fst = k
      · simp [storeItem, h, loadItem]
      · simp [storeItem, h, loadItem, ih]

theorem loadItem_deleteItem_self (items : List (String × cacheItem)) (k : String) :
    loadItem (deleteItem items k) k = none := by
  induction items with
  | nil => simp [deleteItem, loadItem]
  | cons p rest ih =>
      by_cases h : p.fst = k
      · simp [deleteItem, h, ih]
      · simp [deleteItem, h, loadItem, ih]

theorem Get_hit_of_load (c : Cache) (now : Nat) (r : Request) (item : cacheItem)
    (hload : loadItem c.items (generateKey r) = some item)
    (hexp : ¬ now > item.expires) :
    c.Get now r =
      (some (copyResponseWithBody item.response item.body),
       { c with items := storeItem c.items (generateKey r)
                  { item with hits := item.hits + 1, lastUsed := now } }) := by
  simp [Cache.Get, hload, hexp]

theorem Get_expired_of_load (c : Cache) (now : Nat) (r : Request) (item : cacheItem)
    (hload : loadItem c.items (generateKey r) = some item)
    (hexp : now > item.expires) :
    c.Get now r =
      (none, { c with items := deleteItem c.items (generateKey r),
                      size := c.size - item.size }) := by
  simp [Cache.Get, hload, hexp]

theorem Get_absent (c : Cache) (now : Nat) (r : Request)
    (h : loadItem c.items (generateKey r) = none) : c.Get now r = (none, c) := by
  simp [Cache.Get, h]

theorem Set_ok_items (c : Cache) (now : Nat) (r : Request) (resp : Response) (b : List Nat)
    (hca : isCacheable r resp = true) (hb : resp.body = some b)
    (hok : (c.Set now r resp).fst = .ok ()) :
    ∃ items0, (c.Set now r resp).snd.items =
      storeItem items0 (generateKey r)
        { response := resp, body := b, size := (b.length : Int),
          expires := now + c.ttl, lastUsed := now, hits := 0 } := by
  have hni : ¬ (isCacheable r resp = false) := by simp [hca]
  unfold Cache.Set at hok ⊢
  rw [if_neg hni] at hok ⊢
  simp only [copyResponse, hb] at hok ⊢
  by_cases hsz : c.maxSize > 0 ∧ c.size + ((b.length : Int)) > c.maxSize
  · rw [if_pos hsz] at hok ⊢
    by_cases hfull : (c.evict (b.length : Int) now).size + ((b.length : Int)) > c.maxSize
    · rw [if_pos hfull] at hok
      exact absurd hok (by simp)
    · rw [if_neg hfull]
      exact ⟨(c.evict (b.length : Int) now).items, rfl⟩
  · rw [if_neg hsz]
    exact ⟨c.items, rfl⟩

/-- C4: a GET request whose 200 response without Cache-Control: no-store
is stored by Set is an immediate Get hit with identical status, headers
and body; Set on a non-GET request leaves the cache unchanged, and a Get
for a key the cache does not hold misses. -/
theorem claim_C4_roundtrip :
    (∀ (c : Cache) (now : Nat) (r : Request) (resp : Response) (b : List Nat),
      r.method = "GET" → resp.statusCode = 200 →
      headerGet resp.header "Cache-Control" ≠ "no-store" →
      resp.body = some b →
      (c.Set now r resp).fst = .ok () →
      ((c.Set now r resp).snd.Get now r).fst = some (copyResponseWithBody resp b) ∧
      (copyResponseWithBody resp b).statusCode = resp.statusCode ∧
      (copyResponseWithBody resp b).status = resp.status ∧
      (copyResponseWithBody resp b).header = resp.header ∧
      (copyResponseWithBody resp b).body = some b) ∧
    (∀ (c : Cache) (now : Nat) (r : Request) (resp : Response),
      r.method ≠ "GET" →
      c.Set now r resp = (.ok (), c) ∧
      (loadItem c.items (generateKey r) = none → (c.Get now r).fst = none)) := by
  constructor
  · intro c now r resp b hm hs hcc hb hok
    have hca : isCacheable r resp = true := by
      simp [isCacheable, hm, hs, hcc]
    have hhdr : (copyResponseWithBody resp b).header = resp.header := by
      simp [copyResponseWithBody]
    refine ⟨?_, rfl, rfl, hhdr, rfl⟩
    obtain ⟨items0, heq⟩ := Set_ok_items c now r resp b hca hb hok
    have hload : loadItem (c.Set now r resp).snd.items (generateKey r) =
        some { response := resp, body := b, size := (b.length : Int),
               expires := now + c.ttl, lastUsed := now, hits := 0 } := by
      rw [heq]
      exact loadItem_storeItem_self items0 (generateKey r) _
    rw [Get_hit_of_load ((c.Set now r resp).snd) now r _ hload (by simp)]
  · intro c now r resp hm
    have hca : isCacheable r resp = false := by
      simp [isCacheable, hm]
    constructor
    · unfold Cache.Set
      rw [if_pos hca]
    · intro habs
      rw [Get_absent c now r habs]

/-- Witness for C4: the round trip on a fresh cache with the concrete GET
request and 200 response, and the non-GET half at a concrete POST. -/
theorem claim_C4_roundtrip_witness :
    ((((Cache.new 100 50).Set 0 getReqA okRespSmall).snd.Get 0 getReqA).fst =
      some (copyResponseWithBody okRespSmall [1, 2, 3, 4, 5])) ∧
    cacheWithA.Set 7 postReq okRespSmall = (.ok (), cacheWithA) :=
  ⟨((claim_C4_roundtrip.1 (Cache.new 100 50) 0 getReqA okRespSmall [1, 2, 3, 4, 5]
      (by decide) (by decide) (by decide) (by decide) (by rfl))).1,
   (claim_C4_roundtrip.2 cacheWithA 7 postReq okRespSmall (by decide)).1⟩

/-- C6: a stored entry retrieved before its expiry instant is a hit; the
identical key retrieved after the expiry instant is a miss that removes
the entry and subtracts its size from the running size total (the code
treats the exact expiry instant as still fresh). -/
theorem claim_C6_ttl_hit_then_expire (c : Cache) (r : Request) (item : cacheItem)
    (hload : loadItem c.items (generateKey r) = some item) :
    (∀ now, now < item.expires →
      (c.Get now r).fst = some (copyResponseWithBody item.response item.body)) ∧
    (∀ now, item.expires < now →
      (c.Get now r).fst = none ∧
      (c.Get now r).snd.size = c.size - item.size ∧
      loadItem (c.Get now r).snd.items (generateKey r) = none) := by
  constructor
  · intro now hlt
    rw [Get_hit_of_load c now r item hload (by omega)]
  · intro now hgt
    rw [Get_expired_of_load c now r item hload hgt]
    exact ⟨rfl, rfl, loadItem_deleteItem_self c.items (generateKey r)⟩

/-- Witness for C6 at the concrete cache holding itemA (expiry 100): a hit
at instant 50 and an expiring miss at instant 101. -/
theorem claim_C6_ttl_hit_then_expire_witness :
    ((cacheWithA.Get 50 getReqA).fst =
      some (copyResponseWithBody itemA.response itemA.body)) ∧
    ((cacheWithA.Get 101 getReqA).fst = none ∧
      (cacheWithA.Get 101 getReqA).snd.size = cacheWithA.size - itemA.size ∧
      loadItem (cacheWithA.Get 101 getReqA).snd.items (generateKey getReqA) = none) :=
  ⟨(claim_C6_ttl_hit_then_expire cacheWithA getReqA itemA (by decide)).1 50 (by decide),
   (claim_C6_ttl_hit_then_expire cacheWithA getReqA itemA (by decide)).2 101 (by decide)⟩

/-- C7 counterexample: the response returned by Get shares its header
value slices with the cached entry. Writing element 0 of the X-Test value
slice through the copy returned by copyResponseWithBody changes the value
the cached entry observes from a to b, so a mutation of the returned
headers does corrupt the cached entry, against the deep-copy claim. -/
theorem claim_C7_counterexample :
    headerValueA heap0 cachedRespA "X-Test" = ["a"] ∧
    headerValueA
      (heapWrite heap0
        (((copyResponseWithBodyA cachedRespA cachedRespA.body).header.find?
            (fun p => p.fst == "X-Test")).getD ("", 0)).snd
        0 "b")
      cachedRespA "X-Test" = ["b"] := by
  decide

/-- C7 amended: a Get hit returns a fresh Response value over the buffered
body bytes, and the cached entry keeps its stored response and body
unchanged (only the hit counter and last-used time move), so consuming
the returned body stream cannot corrupt the entry; the copied header map
is freshly allocated but binds exactly the same value slices as the
cached entry (same keys and same slice ids), so an in-place write through
a returned value slice is visible in the cached entry. -/
theorem claim_C7_fresh_body_shared_header_slices :
    (∀ (c : Cache) (now : Nat) (r : Request) (item : cacheItem),
      loadItem c.items (generateKey r) = some item → ¬ now > item.expires →
      (c.Get now r).fst = some (copyResponseWithBody item.response item.body) ∧
      (copyResponseWithBody item.response item.body).body = some item.body ∧
      ∃ stored, loadItem (c.Get now r).snd.items (generateKey r) = some stored ∧
        stored.body = item.body ∧ stored.response = item.response) ∧
    (∀ (resp : ResponseA) (b : List Nat),
      (copyResponseWithBodyA resp b).header = resp.header ∧
      (copyResponseWithBodyA resp b).status = resp.status ∧
      (copyResponseWithBodyA resp b).statusCode = resp.statusCode ∧
      (copyResponseWithBodyA resp b).body = b) := by
  constructor
  · intro c now r item hload hexp
    rw [Get_hit_of_load c now r item hload hexp]
    refine ⟨rfl, rfl, ?_⟩
    refine ⟨{ item with hits := item.hits + 1, lastUsed := now }, ?_, rfl, rfl⟩
    exact loadItem_storeItem_self c.items (generateKey r) _
  · intro resp b
    refine ⟨?_, rfl, rfl, rfl⟩
    simp [copyResponseWithBodyA]

/-- Witness for the amended C7 at the concrete cache and at the concrete
aliased response. -/
theorem claim_C7_fresh_body_shared_header_slices_witness :
    ((cacheWithA.Get 50 getReqA).fst =
      some (copyResponseWithBody itemA.response itemA.body) ∧
     (copyResponseWithBody itemA.response itemA.body).body = some itemA.body ∧
     ∃ stored, loadItem (cacheWithA.Get 50 getReqA).snd.items (generateKey getReqA) =
         some stored ∧ stored.body = itemA.body ∧ stored.response = itemA.response) ∧
    ((copyResponseWithBodyA cachedRespA [9]).header = cachedRespA.header ∧
     (copyResponseWithBodyA cachedRespA [9]).status = cachedRespA.status ∧
     (copyResponseWithBodyA cachedRespA [9]).statusCode = cachedRespA.statusCode ∧
     (copyResponseWithBodyA cachedRespA [9]).body = [9]) :=
  ⟨claim_C7_fresh_body_shared_header_slices.1 cacheWithA 50 getReqA itemA
     (by decide) (by decide),
   claim_C7_fresh_body_shared_header_slices.2 cachedRespA [9]⟩

/-! ## Size accounting lemmas -/

theorem mem_of_mem_deleteItem {items : List (String × cacheItem)} {k : String}
    {p : String × cacheItem} (h : p ∈ deleteItem items k) : p ∈ items := by
  induction items with
  | nil => simp [deleteItem] at h
  | cons q rest ih =>
      by_cases hq : q.fst = k
      · simp only [deleteItem, if_pos hq] at h
        exact List.mem_cons_of_mem q (ih h)
      · simp only [deleteItem, if_neg hq, List.mem_cons] at h
        rcases h with h | h
        · exact h ▸ List.mem_cons_self q rest
        · exact List.mem_cons_of_mem q (ih h)

theorem mem_deleteItem_of_mem_ne {items : List (String × cacheItem)} {k : String}
    {p : String × cacheItem} (h : p ∈ items) (hne : p.fst ≠ k) :
    p ∈ deleteItem items k := by
  induction items with
  | nil => simp at h
  | cons q rest ih =>
      rcases List.mem_cons.mp h with h | h
      · subst h
        simp only [deleteItem, if_neg hne]
        exact List.mem_cons_self _ _
      · by_cases hq : q.fst = k
        · simp only [deleteItem, if_pos hq]
          exact ih h
        · simp only [deleteItem, if_neg hq]
          exact List.mem_cons_of_mem q (ih h)

theorem deleteItem_keys_sublist (items : List (String × cacheItem)) (k : String) :
    ((deleteItem items k).map Prod.fst).Sublist (items.map Prod.fst) := by
  induction items with
  | nil => simp [deleteItem]
  | cons q rest ih =>
      by_cases hq : q.fst = k
      · simp only [deleteItem, if_pos hq, List.map_cons]
        exact ih.cons q.fst
      · simp only [deleteItem, if_neg hq, List.map_cons]
        exact ih.cons₂ q.fst

theorem deleteItem_of_not_mem_keys {items : List (String × cacheItem)} {k : String}
    (h : k ∉ items.map Prod.fst) : deleteItem items k = items := by
  induction items with
  | nil => rfl
  | cons q rest ih =>
      simp only [List.map_cons, List.mem_cons] at h
      push_neg at h
      simp only [deleteItem]
      rw [if_neg (fun hq => h.1 (Eq.symm hq)), ih h.2]

theorem sumSizes_deleteItem {items : List (String × cacheItem)} {k : String}
    {it : cacheItem} (hnd : (items.map Prod.fst).Nodup) (hmem : (k, it) ∈ items) :
    sumSizes (deleteItem items k) = sumSizes items - it.size := by
  induction items with
  | nil => simp at hmem
  | cons q rest ih =>
      simp only [List.map_cons, List.nodup_cons] at hnd
      rcases List.mem_cons.mp hmem with h | h
      · subst h
        simp only [deleteItem, if_pos rfl]
        rw [deleteItem_of_not_mem_keys hnd.1]
        simp [sumSizes]
      · have hq : q.fst ≠ k := by
          intro hqe
          exact hnd.1 (hqe ▸ (List.mem_map_of_mem Prod.fst h))
        simp only [deleteItem, if_neg hq]
        simp only [sumSizes, List.map_cons, List.sum_cons] at *
        rw [ih hnd.2 h]
        ring

theorem mem_storeItem {items : List (String × cacheItem)} {k : String} {v : cacheItem}
    {p : String × cacheItem} (h : p ∈ storeItem items k v) : p ∈ items ∨ p = (k, v) := by
  induction items with
  | nil => simpa [storeItem] using h
  | cons q rest ih =>
      by_cases hq : q.fst = k
      · simp only [storeItem, if_pos hq, List.mem_cons] at h
        rcases h with h | h
        · exact Or.inr h
        · exact Or.inl (List.mem_cons_of_mem q h)
      · simp only [storeItem, if_neg hq, List.mem_cons] at h
        rcases h with h | h
        · exact Or.inl (h ▸ List.mem_cons_self q rest)
        · rcases ih h with h | h
          · exact Or.inl (List.mem_cons_of_mem q h)
          · exact Or.inr h

theorem storeItem_keys {items : List (String × cacheItem)} {k : String} {v : cacheItem}
    {x : String} (h : x ∈ (storeItem items k v).map Prod.fst) :
    x ∈ items.map Prod.fst ∨ x = k := by
  rcases List.mem_map.mp h with ⟨p, hp, hx⟩
  rcases mem_storeItem hp with hmem | hkv
  · exact Or.inl (hx ▸ List.mem_map_of_mem Prod.fst hmem)
  · subst hkv
    exact Or.inr hx.symm

theorem storeItem_nodup {items : List (String × cacheItem)} {k : String} {v : cacheItem}
    (hnd : (items.map Prod.fst).Nodup) :
    ((storeItem items k v).map Prod.fst).Nodup := by
  induction items with
  | nil => simp [storeItem]
  | cons q rest ih =>
      simp only [List.map_cons, List.nodup_cons] at hnd
      by_cases hq : q.fst = k
      · simp only [storeItem, if_pos hq, List.map_cons, List.nodup_cons]
        exact ⟨fun hk => hnd.1 (hq ▸ hk), hnd.2⟩
      · simp only [storeItem, if_neg hq, List.map_cons, List.nodup_cons]
        refine ⟨fun hk => ?_, ih hnd.2⟩
        rcases storeItem_keys hk with h | h
        · exact hnd.1 h
        · exact hq h

theorem sumSizes_storeItem_le {items : List (String × cacheItem)} {k : String}
    {v : cacheItem} (hnn : ∀ p ∈ items, 0 ≤ p.snd.size) :
    sumSizes (storeItem items k v) ≤ sumSizes items + v.size := by
  induction items with
  | nil => simp [storeItem, sumSizes]
  | cons q rest ih =>
      have hq0 : 0 ≤ q.snd.size := hnn q (List.mem_cons_self q rest)
      have hrest : ∀ p ∈ rest, 0 ≤ p.snd.size :=
        fun p hp => hnn p (List.mem_cons_of_mem q hp)
      by_cases hq : q.fst = k
      · simp only [storeItem, if_pos hq, sumSizes, List.map_cons, List.sum_cons]
        have : sumSizes rest ≤ sumSizes rest := le_refl _
        simp only [sumSizes] at *
        omega
      · simp only [storeItem, if_neg hq, sumSizes, List.map_cons, List.sum_cons]
        have := ih hrest
        simp only [sumSizes] at this
        omega

theorem insertByScore_perm (now : Nat) (p : String × cacheItem)
    (l : List (String × cacheItem)) : (insertByScore now p l).Perm (p :: l) := by
  induction l with
  | nil => simp [insertByScore]
  | cons q rest ih =>
      simp only [insertByScore]
      split
      · exact List.Perm.refl _
      · exact (List.Perm.cons q ih).trans (List.Perm.swap p q rest)

theorem sortByScore_perm (now : Nat) (l : List (String × cacheItem)) :
    (sortByScore now l).Perm l := by
  induction l with
  | nil => simp [sortByScore]
  | cons p rest ih =>
      simp only [sortByScore]
      exact (insertByScore_perm now p _).trans (List.Perm.cons p ih)

theorem evictLoop_facts (needed : Int) (cands : List (String × cacheItem)) :
    ∀ (c : Cache) (freed : Int),
      (c.items.map Prod.fst).Nodup →
      (∀ p ∈ c.items, 0 ≤ p.snd.size) →
      (∀ p ∈ cands, p ∈ c.items) →
      (cands.map Prod.fst).Nodup →
      ((evictLoop needed c freed cands).items.map Prod.fst).Nodup ∧
      (∀ p ∈ (evictLoop needed c freed cands).items, p ∈ c.items) ∧
      (evictLoop needed c freed cands).size ≤ c.size ∧
      sumSizes (evictLoop needed c freed cands).items - (evictLoop needed c freed cands).size
        ≤ sumSizes c.items - c.size ∧
      (evictLoop needed c freed cands).maxSize = c.maxSize ∧
      (evictLoop needed c freed cands).ttl = c.ttl := by
  induction cands with
  | nil =>
      intro c freed hnd hnn _ _
      exact ⟨hnd, fun p hp => hp, le_refl _, le_refl _, rfl, rfl⟩
  | cons q rest ih =>
      intro c freed hnd hnn hsub hcnd
      obtain ⟨k, it⟩ := q
      by_cases hf : freed ≥ needed
      · have hred : evictLoop needed c freed ((k, it) :: rest) = c := by
          simp only [evictLoop, if_pos hf]
        rw [hred]
        exact ⟨hnd, fun p hp => hp, le_refl _, le_refl _, rfl, rfl⟩
      · have hred : evictLoop needed c freed ((k, it) :: rest) =
            evictLoop needed
              { c with items := deleteItem c.items k, size := c.size - it.size }
              (freed + it.size) rest := by
          simp only [evictLoop, if_neg hf]
        rw [hred]
        have hmem : (k, it) ∈ c.items := hsub _ (List.mem_cons_self _ _)
        have hit0 : 0 ≤ it.size := hnn _ hmem
        simp only [List.map_cons, List.nodup_cons] at hcnd
        have hnd1 : ((deleteItem c.items k).map Prod.fst).Nodup :=
          (deleteItem_keys_sublist c.items k).nodup hnd
        have hnn1 : ∀ p ∈ deleteItem c.items k, 0 ≤ p.snd.size :=
          fun p hp => hnn p (mem_of_mem_deleteItem hp)
        have hsub1 : ∀ p ∈ rest, p ∈ deleteItem c.items k := by
          intro p hp
          refine mem_deleteItem_of_mem_ne (hsub p (List.mem_cons_of_mem _ hp)) ?_
          intro hpe
          exact hcnd.1 (hpe ▸ List.mem_map_of_mem Prod.fst hp)
        obtain ⟨a1, a2, a3, a4, a5, a6⟩ :=
          ih { c with items := deleteItem c.items k, size := c.size - it.size }
            (freed + it.size) hnd1 hnn1 hsub1 hcnd.2
        have hsum : sumSizes (deleteItem c.items k) = sumSizes c.items - it.size :=
          sumSizes_deleteItem hnd hmem
        refine ⟨a1, ?_, ?_, ?_, a5, a6⟩
        · intro p hp
          exact mem_of_mem_deleteItem (a2 p hp)
        · simp only at a3
          omega
        · simp only at a4
          rw [hsum] at a4
          omega

theorem evict_facts (c : Cache) (needed : Int) (now : Nat)
    (hnd : (c.items.map Prod.fst).Nodup) (hnn : ∀ p ∈ c.items, 0 ≤ p.snd.size) :
    ((c.evict needed now).items.map Prod.fst).Nodup ∧
    (∀ p ∈ (c.evict needed now).items, p ∈ c.items) ∧
    (c.evict needed now).size ≤ c.size ∧
    sumSizes (c.evict needed now).items - (c.evict needed now).size
      ≤ sumSizes c.items - c.size ∧
    (c.evict needed now).maxSize = c.maxSize ∧
    (c.evict needed now).ttl = c.ttl := by
  have hperm := sortByScore_perm now c.items
  exact evictLoop_facts needed (sortByScore now c.items) c 0 hnd hnn
    (fun p hp => hperm.subset hp) ((hperm.map Prod.fst).nodup_iff.mpr hnd)

theorem Set_preserves_inv (c : Cache) (now : Nat) (r : Request) (resp : Response)
    (hinv : cacheInv c) :
    cacheInv (c.Set now r resp).snd ∧ (c.Set now r resp).snd.maxSize = c.maxSize := by
  obtain ⟨hnd, hnn, hsum, hbound⟩ := hinv
  by_cases hca : isCacheable r resp = false
  · unfold Cache.Set
    rw [if_pos hca]
    exact ⟨⟨hnd, hnn, hsum, hbound⟩, rfl⟩
  · cases hb : resp.body with
    | none =>
        unfold Cache.Set
        rw [if_neg hca]
        simp only [copyResponse, hb]
        exact ⟨⟨hnd, hnn, hsum, hbound⟩, trivial⟩
    | some b =>
        have hb0 : (0 : Int) ≤ (b.length : Int) := Int.natCast_nonneg _
        unfold Cache.Set
        rw [if_neg hca]
        simp only [copyResponse, hb]
        by_cases hsz : c.maxSize > 0 ∧ c.size + ((b.length : Int)) > c.maxSize
        · rw [if_pos hsz]
          obtain ⟨e1, e2, e3, e4, e5, e6⟩ := evict_facts c (b.length : Int) now hnd hnn
          have nn1 : ∀ p ∈ (c.evict (b.length : Int) now).items, 0 ≤ p.snd.size :=
            fun p hp => hnn p (e2 p hp)
          by_cases hfull :
              (c.evict (b.length : Int) now).size + ((b.length : Int)) > c.maxSize
          · rw [if_pos hfull]
            refine ⟨⟨e1, nn1, ?_, fun hpos => ?_⟩, e5⟩
            · show sumSizes (c.evict (b.length : Int) now).items ≤
                (c.evict (b.length : Int) now).size
              omega
            show (c.evict (b.length : Int) now).size ≤ (c.evict (b.length : Int) now).maxSize
            have hpos1 : 0 < c.maxSize := by
              rw [e5] at hpos
              exact hpos
            rw [e5]
            exact le_trans e3 (hbound hpos1)
          · rw [if_neg hfull]
            have h9 : sumSizes (storeItem (c.evict (b.length : Int) now).items (generateKey r)
                  { response := resp, body := b, size := ((b.length : Int)),
                    expires := now + c.ttl, lastUsed := now, hits := 0 }) ≤
                sumSizes (c.evict (b.length : Int) now).items + ((b.length : Int)) :=
              sumSizes_storeItem_le nn1
            refine ⟨⟨storeItem_nodup e1, ?_, ?_, fun hpos => ?_⟩, e5⟩
            · intro p hp
              rcases mem_storeItem hp with h | h
              · exact nn1 p h
              · rw [h]
                exact hb0
            · show sumSizes (storeItem (c.evict (b.length : Int) now).items (generateKey r)
                  { response := resp, body := b, size := ((b.length : Int)),
                    expires := now + c.ttl, lastUsed := now, hits := 0 }) ≤
                (c.evict (b.length : Int) now).size + ((b.length : Int))
              omega
            · show (c.evict (b.length : Int) now).size + ((b.length : Int)) ≤
                (c.evict (b.length : Int) now).maxSize
              rw [e5]
              omega
        · rw [if_neg hsz]
          have h9 : sumSizes (storeItem c.items (generateKey r)
                { response := resp, body := b, size := ((b.length : Int)),
                  expires := now + c.ttl, lastUsed := now, hits := 0 }) ≤
              sumSizes c.items + ((b.length : Int)) :=
            sumSizes_storeItem_le hnn
          refine ⟨⟨storeItem_nodup hnd, ?_, ?_, fun hpos => ?_⟩, rfl⟩
          · intro p hp
            rcases mem_storeItem hp with h | h
            · exact hnn p h
            · rw [h]
              exact hb0
          · show sumSizes (storeItem c.items (generateKey r)
                { response := resp, body := b, size := ((b.length : Int)),
                  expires := now + c.ttl, lastUsed := now, hits := 0 }) ≤
              c.size + ((b.length : Int))
            omega
          · show c.size + ((b.length : Int)) ≤ c.maxSize
            have hpos1 : 0 < c.maxSize := hpos
            omega

theorem Set_error_shrinks (c : Cache) (now : Nat) (r : Request) (resp : Response)
    (e : String) (hnd : (c.items.map Prod.fst).Nodup)
    (hnn : ∀ p ∈ c.items, 0 ≤ p.snd.size)
    (herr : (c.Set now r resp).fst = .error e) :
    (c.Set now r resp).snd.size ≤ c.size ∧
    ∀ p ∈ (c.Set now r resp).snd.items, p ∈ c.items := by
  by_cases hca : isCacheable r resp = false
  · unfold Cache.Set at herr
    rw [if_pos hca] at herr
    exact absurd herr (by simp)
  · cases hb : resp.body with
    | none =>
        unfold Cache.Set at herr ⊢
        rw [if_neg hca] at herr ⊢
        simp only [copyResponse, hb] at herr ⊢
        exact ⟨le_refl _, fun p hp => hp⟩
    | some b =>
        unfold Cache.Set at herr ⊢
        rw [if_neg hca] at herr ⊢
        simp only [copyResponse, hb] at herr ⊢
        obtain ⟨e1, e2, e3, e4, e5, e6⟩ := evict_facts c (b.length : Int) now hnd hnn
        by_cases hsz : c.maxSize > 0 ∧ c.size + ((b.length : Int)) > c.maxSize
        · rw [if_pos hsz] at herr ⊢
          by_cases hfull :
              (c.evict (b.length : Int) now).size + ((b.length : Int)) > c.maxSize
          · rw [if_pos hfull]
            exact ⟨e3, e2⟩
          · rw [if_neg hfull] at herr
            exact absurd herr (by simp)
        · rw [if_neg hsz] at herr
          exact absurd herr (by simp)

theorem newCache_inv (maxSize : Int) (ttl : Nat) : cacheInv (Cache.new maxSize ttl) := by
  refine ⟨by simp [Cache.new], by simp [Cache.new], by simp [Cache.new, sumSizes], ?_⟩
  intro hpos
  simpa [Cache.new] using le_of_lt hpos

theorem applySets_inv (ops : List (Nat × Request × Response)) :
    ∀ c : Cache, cacheInv c →
      cacheInv (applySets c ops) ∧ (applySets c ops).maxSize = c.maxSize := by
  induction ops with
  | nil =>
      intro c h
      exact ⟨h, rfl⟩
  | cons op rest ih =>
      intro c h
      obtain ⟨h1, h2⟩ := Set_preserves_inv c op.fst op.snd.fst op.snd.snd h
      obtain ⟨h3, h4⟩ := ih _ h1
      simp only [applySets, List.foldl_cons] at *
      exact ⟨h3, h4.trans h2⟩

/-- C5 amended: after any sequence of Set calls from a fresh cache with a
positive maximum, the live total size (and the running counter) never
exceeds the configured maximum; a Set that fails even after eviction
returns an error without storing its item: the cache keeps only entries
it already had and the total size does not increase, but the eviction the
failed Set triggered may already have removed entries, so the total size
can be lower than before the failed call. -/
theorem claim_C5_size_bound_and_failed_set (maxSize : Int) (ttl : Nat)
    (ops : List (Nat × Request × Response)) (hpos : 0 < maxSize) :
    liveSize (applySets (Cache.new maxSize ttl) ops) ≤ maxSize ∧
    (applySets (Cache.new maxSize ttl) ops).size ≤ maxSize ∧
    ∀ (now : Nat) (r : Request) (resp : Response) (e : String),
      ((applySets (Cache.new maxSize ttl) ops).Set now r resp).fst = .error e →
      ((applySets (Cache.new maxSize ttl) ops).Set now r resp).snd.size ≤
        (applySets (Cache.new maxSize ttl) ops).size ∧
      ∀ p ∈ ((applySets (Cache.new maxSize ttl) ops).Set now r resp).snd.items,
        p ∈ (applySets (Cache.new maxSize ttl) ops).items := by
  obtain ⟨⟨hnd, hnn, hsum, hbound⟩, hmax⟩ :=
    applySets_inv ops (Cache.new maxSize ttl) (newCache_inv maxSize ttl)
  have hmax1 : (applySets (Cache.new maxSize ttl) ops).maxSize = maxSize := hmax
  have hposc : 0 < (applySets (Cache.new maxSize ttl) ops).maxSize := by
    rw [hmax1]
    exact hpos
  have hsize : (applySets (Cache.new maxSize ttl) ops).size ≤ maxSize := by
    have h := hbound hposc
    rw [hmax1] at h
    exact h
  refine ⟨le_trans hsum hsize, hsize, ?_⟩
  intro now r resp e herr
  exact Set_error_shrinks _ now r resp e hnd hnn herr

/-- C5 counterexample: with maximum size 10, a stored 5-byte entry and an
11-byte incoming entry, Set evicts the stored entry, still cannot fit the
item, and returns the cache-full error - but the total size has dropped
from 5 to 0, so the size is not unchanged across the failed Set as the
claim states. -/
theorem claim_C5_counterexample :
    ((applySets (Cache.new 10 100) [(0, getReqA, okRespSmall)]).Set 1 getReqB okRespBig).fst =
      .error "cache full: cannot store item of size 11" ∧
    (applySets (Cache.new 10 100) [(0, getReqA, okRespSmall)]).size = 5 ∧
    ((applySets (Cache.new 10 100) [(0, getReqA, okRespSmall)]).Set 1 getReqB okRespBig).snd.size = 0 := by
  constructor
  · rfl
  · exact ⟨rfl, rfl⟩

/-- Witness for the amended C5 at a concrete run: one stored 5-byte entry
under maximum 10, then a failing 11-byte Set. -/
theorem claim_C5_size_bound_and_failed_set_witness :
    liveSize (applySets (Cache.new 10 100) [(0, getReqA, okRespSmall)]) ≤ 10 ∧
    ((applySets (Cache.new 10 100) [(0, getReqA, okRespSmall)]).Set 1 getReqB okRespBig).snd.size ≤
      (applySets (Cache.new 10 100) [(0, getReqA, okRespSmall)]).size :=
  ⟨(claim_C5_size_bound_and_failed_set 10 100 [(0, getReqA, okRespSmall)] (by decide)).1,
   ((claim_C5_size_bound_and_failed_set 10 100 [(0, getReqA, okRespSmall)] (by decide)).2.2
      1 getReqB okRespBig "cache full: cannot store item of size 11" (by rfl)).1⟩

/-! ## Proxy orchestration claims -/

/-- C8 counterexample: with an open breaker whose timeout has not elapsed
and a filter chain whose first filter fails with HTTPError 418, the
handler answers 503 and no filter runs: the breaker admission check comes
first, so the filter chain does not run before it as the claim states (if
it did, the 418 filter error would be the response). -/
theorem claim_C8_counterexample :
    (serviceHandler (some openBreaker) [teapotFilter] none 3 getReqA
        (.error "refused")).status = 503 ∧
    (serviceHandler (some openBreaker) [teapotFilter] none 3 getReqA
        (.error "refused")).events = [.breakerChecked false] := by
  constructor <;> rfl

/-- C8 amended: the circuit-breaker admission check runs before the filter
chain. When the breaker denies the call the proxy answers 503 immediately
with no filter execution, no cache lookup and no forwarding attempt; when
the call is admitted the filter chain runs and any filter error aborts
the request with that error surfaced through handleError (its own
HTTPError code and message, 500 with a generic message otherwise), again
with no cache lookup and no forwarding attempt. -/
theorem claim_C8_breaker_gate_before_filters :
    (∀ (cb : CircuitBreaker) (fs : List FilterFn) (cache? : Option Cache) (now : Nat)
        (r : Request) (fwd : Except String Response) (cb1 : CircuitBreaker),
      cb.Allow now = (false, cb1) →
      serviceHandler (some cb) fs cache? now r fwd =
        { status := 503, events := [.breakerChecked false],
          breaker := some cb1, cache := cache? }) ∧
    (∀ (cb : CircuitBreaker) (fs : List FilterFn) (cache? : Option Cache) (now : Nat)
        (r : Request) (fwd : Except String Response) (cb1 : CircuitBreaker)
        (e : ProxyError) (evs : List ProxyEvent),
      cb.Allow now = (true, cb1) →
      runFilters fs 0 r = (.error e, evs) →
      (serviceHandler (some cb) fs cache? now r fwd).status = (handleError e).fst ∧
      (serviceHandler (some cb) fs cache? now r fwd).events =
        .breakerChecked true :: evs ∧
      (serviceHandler (some cb) fs cache? now r fwd).cache = cache?) := by
  constructor
  · intro cb fs cache? now r fwd cb1 hallow
    simp only [serviceHandler, hallow]
  · intro cb fs cache? now r fwd cb1 e evs hallow hfil
    simp only [serviceHandler, hallow, baseHandler, hfil]
    refine ⟨?_, ?_, ?_⟩ <;> trivial

/-- Witness for the amended C8: the open breaker blocks at instant 3 with
the teapot filter never running, and a closed breaker admits the call
after which the teapot filter aborts with its own 418 error. -/
theorem claim_C8_breaker_gate_before_filters_witness :
    (serviceHandler (some openBreaker) [teapotFilter] none 3 getReqA (.error "refused") =
      { status := 503, events := [.breakerChecked false],
        breaker := some openBreaker, cache := none }) ∧
    ((serviceHandler (some closedBreaker) [teapotFilter] none 0 getReqA
        (.error "refused")).status = (handleError (.httpErr 418 "teapot")).fst ∧
     (serviceHandler (some closedBreaker) [teapotFilter] none 0 getReqA
        (.error "refused")).events = .breakerChecked true :: [.filterRan 0] ∧
     (serviceHandler (some closedBreaker) [teapotFilter] none 0 getReqA
        (.error "refused")).cache = none) :=
  ⟨claim_C8_breaker_gate_before_filters.1 openBreaker [teapotFilter] none 3 getReqA
      (.error "refused") openBreaker (by rfl),
   claim_C8_breaker_gate_before_filters.2 closedBreaker [teapotFilter] none 0 getReqA
      (.error "refused") closedBreaker (.httpErr 418 "teapot") [.filterRan 0]
      (by rfl) (by rfl)⟩

/-! ## Health checker claims -/

/-- C9 counterexample: a probe that reaches the endpoint, sees status 200
and then fails while reading the body yields unhealthy with a read-failure
diagnostic, against the claim that a 200 status yields healthy. -/
theorem claim_C9_counterexample :
    (checkService 0 "http://backend" (.parsed "http" "backend")
        (.gotResponse 200 "200 OK" 10 (some "connection reset"))).fst =
      { healthy := false, lastCheck := 0,
        message := "Failed to read response body: connection reset" } ∧
    (checkService 0 "http://backend" (.parsed "http" "backend")
        (.gotResponse 200 "200 OK" 10 (some "connection reset"))).fst.healthy = false := by
  constructor <;> rfl

/-- C9 amended: every health probe that passes URL validation issues a GET
to the base URL plus /health and reads at most the fixed 1024-byte cap of
the response body under a positive client timeout; classification: a
malformed base URL yields unhealthy with an invalid-URL diagnostic, a
transport failure yields unhealthy with a request-failed diagnostic, a
failure while reading the response body yields unhealthy with a
read-failure diagnostic, a non-200 status yields unhealthy with the
observed status text, and a 200 status whose capped body read succeeds
yields healthy. -/
theorem claim_C9_probe_classification :
    (∀ (now : Nat) (url : String) (parse : URLParse) (net : NetOutcome) (e : String),
      validateURL parse = .error e →
      (checkService now url parse net).fst =
        { healthy := false, lastCheck := now, message := "Invalid URL: " ++ e }) ∧
    (∀ (now : Nat) (url : String) (parse : URLParse) (m : String),
      validateURL parse = .ok () →
      (checkService now url parse (.transportFailed m)).fst =
        { healthy := false, lastCheck := now, message := "Request failed: " ++ m } ∧
      (checkService now url parse (.transportFailed m)).snd =
        some { method := "GET", target := url ++ "/health" }) ∧
    (∀ (now : Nat) (url : String) (parse : URLParse) (code : Nat) (text : String)
        (len : Nat) (m : String),
      validateURL parse = .ok () →
      (checkService now url parse (.gotResponse code text len (some m))).fst =
        { healthy := false, lastCheck := now,
          message := "Failed to read response body: " ++ m }) ∧
    (∀ (now : Nat) (url : String) (parse : URLParse) (code : Nat) (text : String)
        (len : Nat),
      validateURL parse = .ok () → code ≠ 200 →
      (checkService now url parse (.gotResponse code text len none)).fst =
        { healthy := false, lastCheck := now,
          message := "Unexpected status code: " ++ text }) ∧
    (∀ (now : Nat) (url : String) (parse : URLParse) (text : String) (len : Nat),
      validateURL parse = .ok () →
      (checkService now url parse (.gotResponse 200 text len none)).fst =
        { healthy := true, lastCheck := now, message := "" } ∧
      (checkService now url parse (.gotResponse 200 text len none)).snd =
        some { method := "GET", target := url ++ "/health" }) ∧
    (∀ n : Nat, bodyBytesRead n ≤ healthBodyCap) ∧
    0 < healthClientTimeout := by
  refine ⟨?_, ?_, ?_, ?_, ?_, ?_, by decide⟩
  · intro now url parse net e hval
    simp only [checkService, hval]
  · intro now url parse m hval
    simp only [checkService, hval]
    refine ⟨?_, ?_⟩ <;> trivial
  · intro now url parse code text len m hval
    simp only [checkService, hval]
  · intro now url parse code text len hval hcode
    simp only [checkService, hval]
    rw [if_pos hcode]
  · intro now url parse text len hval
    simp only [checkService, hval]
    constructor <;> simp
  · intro n
    exact min_le_right n healthBodyCap

/-- Witness for the amended C9 at one concrete probe per classification
case. -/
theorem claim_C9_probe_classification_witness :
    ((checkService 0 "u" (.failed "bad") (.transportFailed "x")).fst =
      { healthy := false, lastCheck := 0, message := "Invalid URL: " ++ "bad" }) ∧
    ((checkService 1 "http://b" (.parsed "http" "b") (.transportFailed "refused")).fst =
      { healthy := false, lastCheck := 1, message := "Request failed: " ++ "refused" } ∧
     (checkService 1 "http://b" (.parsed "http" "b") (.transportFailed "refused")).snd =
      some { method := "GET", target := "http://b" ++ "/health" }) ∧
    ((checkService 2 "http://b" (.parsed "http" "b")
        (.gotResponse 200 "200 OK" 5 (some "rst"))).fst =
      { healthy := false, lastCheck := 2,
        message := "Failed to read response body: " ++ "rst" }) ∧
    ((checkService 3 "http://b" (.parsed "http" "b")
        (.gotResponse 503 "503 Service Unavailable" 5 none)).fst =
      { healthy := false, lastCheck := 3,
        message := "Unexpected status code: " ++ "503 Service Unavailable" }) ∧
    ((checkService 4 "http://b" (.parsed "http" "b")
        (.gotResponse 200 "200 OK" 5 none)).fst =
      { healthy := true, lastCheck := 4, message := "" } ∧
     (checkService 4 "http://b" (.parsed "http" "b")
        (.gotResponse 200 "200 OK" 5 none)).snd =
      some { method := "GET", target := "http://b" ++ "/health" }) ∧
    bodyBytesRead 5000 ≤ healthBodyCap :=
  ⟨claim_C9_probe_classification.1 0 "u" (.failed "bad") (.transportFailed "x") "bad" (by rfl),
   claim_C9_probe_classification.2.1 1 "http://b" (.parsed "http" "b") "refused" (by rfl),
   claim_C9_probe_classification.2.2.1 2 "http://b" (.parsed "http" "b") 200 "200 OK" 5
     "rst" (by rfl),
   claim_C9_probe_classification.2.2.2.1 3 "http://b" (.parsed "http" "b") 503
     "503 Service Unavailable" 5 (by rfl) (by decide),
   claim_C9_probe_classification.2.2.2.2.1 4 "http://b" (.parsed "http" "b") "200 OK" 5
     (by rfl),
   claim_C9_probe_classification.2.2.2.2.2.1 5000⟩

theorem handleHealthLoop_spec (now : Nat) (headOk : String → Bool)
    (svcs : List HealthService) :
    handleHealthLoop now headOk svcs =
      (svcs.map (fun s =>
        (s.name,
          match s.breaker with
          | some cb => (cb.Allow now).fst
          | none => headOk s.url)),
       svcs.map (fun s =>
        match s.breaker with
        | some cb => { s with breaker := some (cb.Allow now).snd }
        | none => s)) := by
  induction svcs with
  | nil => rfl
  | cons s rest ih =>
      obtain ⟨nm, brk, url⟩ := s
      cases brk with
      | some cb => simp [handleHealthLoop, ih]
      | none => simp [handleHealthLoop, ih]

/-- C10: a GET to the /health endpoint is not read-only on breaker state:
for every configured service with a breaker the handler reports the
result of calling Allow() on that breaker and stores the updated breaker,
and concretely an Open breaker whose timeout has elapsed is transitioned
to HalfOpen (consuming the half-open trial admission) by merely reading
aggregate health. -/
theorem claim_C10_health_endpoint_mutates_breakers :
    (∀ (now : Nat) (svcs : List HealthService) (headOk : String → Bool),
      (handleHealth now svcs headOk).after =
        svcs.map (fun s =>
          match s.breaker with
          | some cb => { s with breaker := some (cb.Allow now).snd }
          | none => s) ∧
      (handleHealth now svcs headOk).services =
        svcs.map (fun s =>
          (s.name,
            match s.breaker with
            | some cb => (cb.Allow now).fst
            | none => headOk s.url))) ∧
    ((handleHealth 6 [healthSvc] (fun _ => true)).after =
        [{ healthSvc with breaker := some { openBreaker with state := .halfOpen } }] ∧
      openBreaker.state = .opened ∧
      (handleHealth 6 [healthSvc] (fun _ => true)).services = [("svc", true)]) := by
  constructor
  · intro now svcs headOk
    simp only [handleHealth, handleHealthLoop_spec]
    refine ⟨?_, ?_⟩ <;> trivial
  · refine ⟨?_, ?_, ?_⟩ <;> rfl
